import Mathlib

/-!
Verification of the scipion-em-novactf plugin's bookkeeping layer.

The plugin (files `protocol_novactf.py`, `protocol_tomoDefocus.py`,
`protocol_tomoReconstruction.py`) orchestrates the external novaCTF and IMOD
executables.  This development gives a shallow embedding of the pure
bookkeeping performed by those protocols: tilt-series/CTF matching,
intermediate-stack counting over a file-system state, CLI-argument
construction, the inserted step-dependency graph, and output registration.

File names are modelled as `String`; a directory's contents as a
`Finset String`.  Numeric parameters use `Int`/`ℚ`.  The decimal rendering of
a counter (Python's `str(counter)`) is modelled by `natStr`, proved injective.
-/

/-- Decimal digit characters: value of a digit character, as used to parse
back `Nat.digitChar`.  Only used in proofs (left inverse of rendering). -/
def charToDigit (c : Char) : Nat := c.toNat - Char.toNat '0'

/-- Parse a digit string back to a number (left inverse of rendering). -/
def charsToNat (l : List Char) : Nat :=
  l.foldl (fun acc c => 10 * acc + charToDigit c) 0

/-- Fuel-bounded most-significant-first decimal digits of `n`.
`fuel = n + 1` always suffices. -/
def natCharsAux : Nat → Nat → List Char
  | 0, _ => []
  | _ + 1, 0 => []
  | fuel + 1, n + 1 =>
      natCharsAux fuel ((n + 1) / 10) ++ [Nat.digitChar ((n + 1) % 10)]

/-- Decimal rendering of a natural number, modelling Python's `str(n)`. -/
def natStr (n : Nat) : String :=
  if n = 0 then "0" else String.mk (natCharsAux (n + 1) n)

/-- The name `<tsId>.defocus_<i>` of the i-th per-stratum defocus file
written by the novaCTF defocus algorithm (see `_getDefocusFnByIndex` in
`protocol_novactf.py` and the loop of `getNumberOfIntermediateStacksStep`
in `protocol_tomoDefocus.py`). -/
def defocusFileName (tsId : String) (i : Nat) : String :=
  tsId ++ ".defocus_" ++ natStr i

/-- The sequential-existence loop of
`ProtNovaCtfTomoDefocus.getNumberOfIntermediateStacksStep`
(`protocol_tomoDefocus.py`, lines 256-262):

    numberOfIntermediateStacks = 0
    counter = 0
    while os.path.exists(defocusFilePath + str(counter)):
        numberOfIntermediateStacks += 1
        counter += 1

Both loop variables are carried; `fuel` bounds the iteration (the file system
is finite, so `fs.card + 1` iterations always reach a missing file). -/
def stacksLoop (fs : Finset String) (tsId : String) :
    Nat → Nat → Nat → Nat
  | 0, n, _ => n
  | fuel + 1, n, counter =>
      if defocusFileName tsId counter ∈ fs then
        stacksLoop fs tsId fuel (n + 1) (counter + 1)
      else n

/-- The number of intermediate stacks computed by the sequential loop of
`getNumberOfIntermediateStacksStep`. -/
def stacksLoopCount (fs : Finset String) (tsId : String) : Nat :=
  stacksLoop fs tsId (fs.card + 1) 0 0

/-- The step `getNumberOfIntermediateStacksStep` (`protocol_tomoDefocus.py`, lines
249-263): runs the counting loop and appends exactly one `Integer` to the
protocol's `numberOfIntermediateStacks` list. -/
def getNumberOfIntermediateStacksStep (fs : Finset String) (tsId : String)
    (numberOfIntermediateStacks : List Nat) : List Nat :=
  numberOfIntermediateStacks ++ [stacksLoopCount fs tsId]

/-- Boolean list-prefix test (executable), used to model glob matching. -/
def isPrefixChars : List Char → List Char → Bool
  | [], _ => true
  | _ :: _, [] => false
  | a :: as, b :: bs => a = b && isPrefixChars as bs

/-- A file name matches the glob pattern `<tsId>.defocus_*` iff
`<tsId>.defocus_` is a prefix of it. -/
def matchesDefocusGlob (tsId : String) (f : String) : Bool :=
  isPrefixChars (tsId ++ ".defocus_").data f.data

/-- Model of `ProtNovaCtf.getNumberOfStacks` (`protocol_novactf.py`, lines 471-474):
counts all files in the tilt-series working directory matching the glob
pattern `<tsId>.defocus_*`. -/
def getNumberOfStacks (fs : Finset String) (tsId : String) : Nat :=
  (fs.filter (fun f => matchesDefocusGlob tsId f = true)).card

/-- A concrete file-system state on which the glob count and the sequential
count disagree: the run of defocus files has a gap at index 1. -/
def fsGapped : Finset String := {defocusFileName "TS" 0, defocusFileName "TS" 2}

/-- Acquisition metadata of a tilt-series (the fields the plugin reads). -/
structure Acquisition where
  tiltAxisAngle : ℚ
  amplitudeContrast : ℚ
  sphericalAberration : ℚ
  voltage : ℚ
deriving DecidableEq

/-- The data of one tilt-series that the plugin's bookkeeping reads. -/
structure TiltSeriesData where
  tsId : String
  hasAlignment : Bool
  acquisition : Acquisition
  xDim : Int
  yDim : Int
deriving DecidableEq

/-- One CTF estimation series (only its tsId matters for matching). -/
structure CtfTomoSeries where
  tsId : String
deriving DecidableEq

/-- The protocol state produced by `ProtNovaCtf._initialize`:
the dictionaries of retained items and the optional non-matching message
(modelled by the set of non-matching tsIds it reports). -/
structure InitState where
  tsDict : List TiltSeriesData
  ctfDict : List CtfTomoSeries
  nonMatchingTsIdsMsg : Option (Finset String)
deriving DecidableEq

/-- Model of `ProtNovaCtf._initialize` (`protocol_novactf.py`, lines 191-207):
intersects the tsIds of the input tilt-series set and CTF set, raises when
the intersection is empty, records a message when the symmetric difference is
non-empty, and keeps (clones of) exactly the items whose tsId is in the
intersection. -/
def initTsCtfMatch (inTsSet : List TiltSeriesData) (inCtfs : List CtfTomoSeries) :
    Except String InitState :=
  let tsIds : Finset String := (inTsSet.map (fun ts => ts.tsId)).toFinset
  let ctfTsIds : Finset String := (inCtfs.map (fun c => c.tsId)).toFinset
  let matchingTsIds := tsIds ∩ ctfTsIds
  let nonMatchingTsIds := (tsIds \ ctfTsIds) ∪ (ctfTsIds \ tsIds)
  if matchingTsIds = ∅ then
    Except.error "No matching tsIds were found among the given sets of tilt-series and CTFs."
  else
    Except.ok
      { tsDict := inTsSet.filter (fun ts => ts.tsId ∈ matchingTsIds)
        ctfDict := inCtfs.filter (fun c => c.tsId ∈ matchingTsIds)
        nonMatchingTsIdsMsg :=
          if nonMatchingTsIds ≠ ∅ then some nonMatchingTsIds else none }

instance {ε α : Type} [DecidableEq ε] [DecidableEq α] : DecidableEq (Except ε α) := fun x y =>
  match x, y with
  | .error a, .error b =>
      if h : a = b then isTrue (by rw [h]) else isFalse (fun hc => h (Except.error.inj hc))
  | .ok a, .ok b =>
      if h : a = b then isTrue (by rw [h]) else isFalse (fun hc => h (Except.ok.inj hc))
  | .error _, .ok _ => isFalse (fun hc => Except.noConfusion hc)
  | .ok _, .error _ => isFalse (fun hc => Except.noConfusion hc)

/-- Sample acquisition used by concrete witnesses. -/
def acqSample : Acquisition := ⟨85, 0, 0, 300⟩

/-- Sample tilt-series used by concrete witnesses. -/
def tsSample : TiltSeriesData := ⟨"TS_1", true, acqSample, 1000, 750⟩

/-- The state `_initialize` produces on `[tsSample]` and CTFs for
`TS_1` and `TS_2`. -/
def initStateSample : InitState :=
  { tsDict := [tsSample]
    ctfDict := [⟨"TS_1"⟩]
    nonMatchingTsIdsMsg := some {"TS_2"} }

/-- Model of `ProtNovaCtfTomoDefocus.getCorrectionType` (`protocol_tomoDefocus.py`,
lines 293-299): an `if`/`elif` chain assigning a local that is returned;
for a parameter other than 0 or 1 the local is never assigned and the
function fails with `UnboundLocalError`, modelled by `none`. -/
def getCorrectionTypeDefocus (correctionType : Int) : Option String :=
  if correctionType = 0 then some "phaseflip"
  else if correctionType = 1 then some "multiplication"
  else none

/-- Model of `ProtNovaCtfTomoDefocus.getDefocusFileFormat` (`protocol_tomoDefocus.py`,
lines 307-313): two consecutive `if` statements assigning a local that is
returned; unassigned (failure) is modelled by `none`. -/
def getDefocusFileFormat (ctfEstimationType : Int) : Option String :=
  let afterFirstIf : Option String := if ctfEstimationType = 0 then some "imod" else none
  if ctfEstimationType = 1 then some "ctffind4" else afterFirstIf

/-- Model of `ProtNovaCtf.getCorrectionType` (`protocol_novactf.py`, lines 479-480):
total conditional expression. -/
def getCorrectionTypeNova (correctionType : Int) : String :=
  if correctionType = 0 then "phaseflip" else "multiplication"

/-- Heterogeneous CLI parameter values: plain strings, numbers, and the
results of formatting two numbers as `<a>,<b>`. -/
inductive PVal where
  | str : String → PVal
  | int : Int → PVal
  | rat : ℚ → PVal
  | pairN : Int → Int → PVal
  | pairQ : ℚ → ℚ → PVal
deriving DecidableEq

/-- Dictionary lookup in an argument list (first match). -/
def findParam (params : List (String × PVal)) (key : String) : Option PVal :=
  (params.find? (fun p => p.1 = key)).map (fun p => p.2)

/-- Dictionary update of an existing key (in-place, keeps position). -/
def setParam (params : List (String × PVal)) (key : String) (v : PVal) :
    List (String × PVal) :=
  params.map (fun p => if p.1 = key then (key, v) else p)

def pathJoin (a b : String) : String := a ++ "/" ++ b

/-- The directory `self._getTmpPath(tsId)`, relative to the run directory. -/
def tmpDir (tsId : String) : String := "tmp/" ++ tsId

/-- The directory `self._getExtraPath(tsId)`, relative to the run directory. -/
def extraDir (tsId : String) : String := "extra/" ++ tsId

def tsTmpFileName (tsId : String) : String := pathJoin (tmpDir tsId) (tsId ++ ".mrc")

def tltFn (tsId : String) : String := pathJoin (tmpDir tsId) (tsId ++ ".tlt")

def defocusFn (tsId : String) : String := pathJoin (tmpDir tsId) (tsId ++ ".defocus")

def defocusShiftFn (tsId : String) : String := pathJoin (tmpDir tsId) (tsId ++ ".def_shift")

def xfFn (tsId : String) : String := pathJoin (tmpDir tsId) (tsId ++ ".xf")

def defocusFnByIndex (tsId : String) (i : Nat) : String :=
  pathJoin (tmpDir tsId) (defocusFileName tsId i)

def stackTsFnByIndex (tsId : String) (i : Nat) : String :=
  pathJoin (tmpDir tsId) (tsId ++ ".mrc_" ++ natStr i)

def aliStackTsFnByIndex (tsId : String) (i : Nat) : String :=
  pathJoin (tmpDir tsId) (tsId ++ "_ali.mrc_" ++ natStr i)

def flipStackFnByIndex (tsId : String) (i : Nat) : String :=
  pathJoin (tmpDir tsId) (tsId ++ "_flip.mrc_" ++ natStr i)

def filterFn (tsId : String) : String := pathJoin (tmpDir tsId) (tsId ++ "_filter.mrc")

def filterStackFnByIndex (tsId : String) (i : Nat) : String :=
  pathJoin (tmpDir tsId) (tsId ++ "_filter.mrc_" ++ natStr i)

def recTomoTmpFn (tsId : String) : String := pathJoin (tmpDir tsId) (tsId ++ "_rec.mrc")

def finalRecTomoFn (tsId : String) : String := pathJoin (extraDir tsId) (tsId ++ ".mrc")

/-- The form parameters of `ProtNovaCtf` (`_defineParams`). -/
structure NovaCtfProtArgs where
  defocusStep : Int
  correctionType : Int
  correctAstigmatism : Bool
  tomoThickness : Int
  tomoShift : ℚ
  radialFirstParameter : ℚ
  radialSecondParameter : ℚ
deriving DecidableEq

/-- The `paramsDefocus` dictionary of `ProtNovaCtf.computeDefocusStep`
(`protocol_novactf.py`, lines 257-277), including the conditional
`-DefocusShiftFile` entry added when `tomoShift > 0.01`. -/
def paramsDefocus (cfg : NovaCtfProtArgs) (ts : TiltSeriesData) (samplingRate : ℚ) :
    List (String × PVal) :=
  [("-Algorithm", PVal.str "defocus"),
   ("-InputProjections", PVal.str (tsTmpFileName ts.tsId)),
   ("-FULLIMAGE", PVal.pairN ts.xDim ts.yDim),
   ("-THICKNESS", PVal.int cfg.tomoThickness),
   ("-TILTFILE", PVal.str (tltFn ts.tsId)),
   ("-SHIFT", PVal.str "0.0,0.0"),
   ("-CorrectionType", PVal.str (getCorrectionTypeNova cfg.correctionType)),
   ("-DefocusFileFormat", PVal.str "imod"),
   ("-CorrectAstigmatism", PVal.int (if cfg.correctAstigmatism then 1 else 0)),
   ("-DefocusFile", PVal.str (defocusFn ts.tsId)),
   ("-PixelSize", PVal.rat (samplingRate / 10)),
   ("-DefocusStep", PVal.int cfg.defocusStep)]
  ++ (if cfg.tomoShift > 1 / 100 then
        [("-DefocusShiftFile", PVal.str (defocusShiftFn ts.tsId))]
      else [])

/-- The `paramsCtfCorrection` dictionary as used in iteration `i` of the
intermediate-stack loop (`protocol_novactf.py`, lines 286-303): the base
dictionary with `-OutputFile` and `-DefocusFile` set for index `i`. -/
def paramsCtfCorrection (cfg : NovaCtfProtArgs) (ts : TiltSeriesData)
    (samplingRate : ℚ) (i : Nat) : List (String × PVal) :=
  [("-Algorithm", PVal.str "ctfCorrection"),
   ("-InputProjections", PVal.str (tsTmpFileName ts.tsId)),
   ("-TILTFILE", PVal.str (tltFn ts.tsId)),
   ("-CorrectionType", PVal.str (getCorrectionTypeNova cfg.correctionType)),
   ("-DefocusFileFormat", PVal.str "imod"),
   ("-CorrectAstigmatism", PVal.int (if cfg.correctAstigmatism then 1 else 0)),
   ("-PixelSize", PVal.rat (samplingRate / 10)),
   ("-AmplitudeContrast", PVal.rat ts.acquisition.amplitudeContrast),
   ("-Cs", PVal.rat ts.acquisition.sphericalAberration),
   ("-Volt", PVal.rat ts.acquisition.voltage),
   ("-OutputFile", PVal.str (stackTsFnByIndex ts.tsId i)),
   ("-DefocusFile", PVal.str (defocusFnByIndex ts.tsId i))]

/-- The `paramsAlignment` dictionary of the `newstack` call in iteration `i`
(`protocol_novactf.py`, lines 308-322), including the conditional `-size`
entry added when `45 < |rotationAngle| < 135`. -/
def paramsAlignment (ts : TiltSeriesData) (i : Nat) : List (String × PVal) :=
  [("-input", PVal.str (stackTsFnByIndex ts.tsId i)),
   ("-output", PVal.str (aliStackTsFnByIndex ts.tsId i)),
   ("-xform", PVal.str (xfFn ts.tsId)),
   ("-AdjustOrigin", PVal.str ""),
   ("-NearestNeighbor", PVal.str ""),
   ("-taper", PVal.str "1,1")]
  ++ (if 45 < |ts.acquisition.tiltAxisAngle| ∧ |ts.acquisition.tiltAxisAngle| < 135 then
        [("-size", PVal.pairN ts.yDim ts.xDim)]
      else [])

/-- The `paramsFilter` dictionary of the `filterProjections` call in
iteration `i` (`protocol_novactf.py`, lines 333-340). -/
def paramsFilter (cfg : NovaCtfProtArgs) (ts : TiltSeriesData) (i : Nat) :
    List (String × PVal) :=
  [("-Algorithm", PVal.str "filterProjections"),
   ("-InputProjections", PVal.str (flipStackFnByIndex ts.tsId i)),
   ("-OutputFile", PVal.str (filterStackFnByIndex ts.tsId i)),
   ("-TILTFILE", PVal.str (tltFn ts.tsId)),
   ("-StackOrientation", PVal.str "xz"),
   ("-RADIAL", PVal.pairQ cfg.radialFirstParameter cfg.radialSecondParameter)]

/-- The `params3dctf` dictionary of `ProtNovaCtf.computeReconstructionStep`
(`protocol_novactf.py`, lines 364-381), with the `-FULLIMAGE` entry updated
to the swapped dimensions when `45 < |rotationAngle| < 135`. -/
def params3dctf (cfg : NovaCtfProtArgs) (ts : TiltSeriesData) (samplingRate : ℚ)
    (fs : Finset String) : List (String × PVal) :=
  let base :=
    [("-Algorithm", PVal.str "3dctf"),
     ("-InputProjections", PVal.str (filterFn ts.tsId)),
     ("-OutputFile", PVal.str (recTomoTmpFn ts.tsId)),
     ("-FULLIMAGE", PVal.pairN ts.xDim ts.yDim),
     ("-TILTFILE", PVal.str (tltFn ts.tsId)),
     ("-THICKNESS", PVal.int cfg.tomoThickness),
     ("-SHIFT", PVal.pairQ 0 cfg.tomoShift),
     ("-PixelSize", PVal.rat (samplingRate / 10)),
     ("-NumberOfInputStacks", PVal.int (getNumberOfStacks fs ts.tsId)),
     ("-Use3DCTF", PVal.int 1)]
  if 45 < |ts.acquisition.tiltAxisAngle| ∧ |ts.acquisition.tiltAxisAngle| < 135 then
    setParam base "-FULLIMAGE" (PVal.pairN ts.yDim ts.xDim)
  else base

/-- One external-process invocation: either the novaCTF binary with a
parameter dictionary, or an IMOD program with flag-style and positional
arguments. -/
inductive Invocation where
  | novaCTF : List (String × PVal) → Invocation
  | imod : String → List (String × PVal) → List String → Invocation
deriving DecidableEq

/-- The body of iteration `i` of the intermediate-stack loop of
`ProtNovaCtf.computeDefocusStep` (`protocol_novactf.py`, lines 299-342):
novaCTF ctfCorrection, then (when the tilt-series has alignment) IMOD
`newstack`, then IMOD `clip flipyz` (whose input is the aligned stack when
alignment was applied), then novaCTF filterProjections. -/
def stackBodyTrace (cfg : NovaCtfProtArgs) (ts : TiltSeriesData) (samplingRate : ℚ)
    (i : Nat) : List Invocation :=
  [Invocation.novaCTF (paramsCtfCorrection cfg ts samplingRate i)]
  ++ (if ts.hasAlignment then [Invocation.imod "newstack" (paramsAlignment ts i) []] else [])
  ++ [Invocation.imod "clip" []
        ["flipyz",
         (if ts.hasAlignment then aliStackTsFnByIndex ts.tsId i else stackTsFnByIndex ts.tsId i),
         flipStackFnByIndex ts.tsId i],
      Invocation.novaCTF (paramsFilter cfg ts i)]

/-- The `for i in range(nstacks)` loop of `computeDefocusStep`, as the list
of invocations it issues. -/
def ctfLoopTrace (cfg : NovaCtfProtArgs) (ts : TiltSeriesData) (samplingRate : ℚ) :
    Nat → List Invocation
  | 0 => []
  | n + 1 => ctfLoopTrace cfg ts samplingRate n ++ stackBodyTrace cfg ts samplingRate n

/-- The invocations issued by `ProtNovaCtf.computeDefocusStep`
(`protocol_novactf.py`, lines 248-342): nothing for a failed tilt-series,
otherwise the defocus call followed by the per-stack pipeline for each
intermediate stack. -/
def computeDefocusStepTrace (cfg : NovaCtfProtArgs) (ts : TiltSeriesData)
    (samplingRate : ℚ) (fs : Finset String) (failedItems : List String) :
    List Invocation :=
  if ts.tsId ∈ failedItems then []
  else
    Invocation.novaCTF (paramsDefocus cfg ts samplingRate)
      :: ctfLoopTrace cfg ts samplingRate (getNumberOfStacks fs ts.tsId)

/-- The invocations issued by `ProtNovaCtf.computeReconstructionStep`
(`protocol_novactf.py`, lines 349-391): nothing for a failed tilt-series,
otherwise novaCTF 3dctf followed by IMOD `trimvol -rx`. -/
def computeReconstructionStepTrace (cfg : NovaCtfProtArgs) (ts : TiltSeriesData)
    (samplingRate : ℚ) (fs : Finset String) (failedItems : List String) :
    List Invocation :=
  if ts.tsId ∈ failedItems then []
  else
    [Invocation.novaCTF (params3dctf cfg ts samplingRate fs),
     Invocation.imod "trimvol" [] ["-rx", recTomoTmpFn ts.tsId, finalRecTomoFn ts.tsId]]

/-- Sample protocol arguments used by concrete witnesses. -/
def cfgSample : NovaCtfProtArgs := ⟨15, 0, true, 400, 0, 3 / 10, 1 / 20⟩

/-- Python's `is` identity test between a `str` and a `list` (line 398 of
`protocol_novactf.py`, `if tsId is self.failedItems:`): values of different
types are never identical, so the test is always False. -/
def strIsList (_ : String) (_ : List String) : Bool := false

/-- A tomogram as registered in the output set. -/
structure TomogramOut where
  fileName : String
  tsId : String
  samplingRate : ℚ
  acquisition : Acquisition
deriving DecidableEq

/-- Model of `ProtNovaCtf.createOutputStep` (`protocol_novactf.py`, lines 397-425):
after the (vacuous) `is`-guard, appends a new tomogram to the output set
when the final reconstructed file exists, and leaves the set unchanged
otherwise. -/
def createOutputStep (fs : Finset String) (failedItems : List String)
    (ts : TiltSeriesData) (inSamplingRate : ℚ) (outputTomos : List TomogramOut) :
    List TomogramOut :=
  if strIsList ts.tsId failedItems then outputTomos
  else if finalRecTomoFn ts.tsId ∈ fs then
    outputTomos ++ [{ fileName := finalRecTomoFn ts.tsId
                      tsId := ts.tsId
                      samplingRate := inSamplingRate
                      acquisition := ts.acquisition }]
  else outputTomos

/-- The file-system state exhibiting the failed-item divergence: the final
reconstructed tomogram for `TS_1` exists. -/
def fsWithFinalTomo : Finset String := {finalRecTomoFn "TS_1"}

/-- The kind of a workflow step inserted by the protocols. -/
inductive StepKind where
  | convertInput
  | computeDefocus
  | computeReconstruction
  | createOutput
  | closeOutputSet
  | processIntermediateStacks (counter : Nat)
deriving DecidableEq

/-- A workflow step as registered with the host engine: its id, kind, the
tilt-series it works on (none for the close step) and the ids of its
prerequisite steps. -/
structure WStep where
  id : Nat
  kind : StepKind
  tsId : Option String
  prereqs : List Nat
deriving DecidableEq

/-- The four steps `ProtNovaCtf._insertAllSteps` inserts for one tilt-series
(`protocol_novactf.py`, lines 172-185): conversion, then defocus computation
depending on it, then reconstruction depending on that, then output
registration depending on that. -/
def insertTsSteps (tsId : String) (nextId : Nat) : List WStep :=
  [⟨nextId, StepKind.convertInput, some tsId, []⟩,
   ⟨nextId + 1, StepKind.computeDefocus, some tsId, [nextId]⟩,
   ⟨nextId + 2, StepKind.computeReconstruction, some tsId, [nextId + 1]⟩,
   ⟨nextId + 3, StepKind.createOutput, some tsId, [nextId + 2]⟩]

/-- The loop of `ProtNovaCtf._insertAllSteps` over `self.tsDict.keys()`,
accumulating the output-registration step ids into `closeSetDeps` and
finally inserting the close step depending on all of them. -/
def insertAllStepsGo : Nat → List Nat → List String → List WStep
  | nextId, closeSetDeps, [] => [⟨nextId, StepKind.closeOutputSet, none, closeSetDeps⟩]
  | nextId, closeSetDeps, tsId :: rest =>
      insertTsSteps tsId nextId
        ++ insertAllStepsGo (nextId + 4) (closeSetDeps ++ [nextId + 3]) rest

/-- Model of `ProtNovaCtf._insertAllSteps` (`protocol_novactf.py`, lines 169-188). -/
def insertAllSteps (tsIds : List String) : List WStep := insertAllStepsGo 0 [] tsIds

/-- The steps `ProtNovaCtfTomoReconstruction._insertAllSteps` inserts for one
tilt-series with `nstacks` intermediate stacks (`protocol_tomoReconstruction.py`,
lines 125-145): conversion, one intermediate-stack step per counter (each
depending on the conversion), the reconstruction depending on all of them,
and output registration depending on the reconstruction. -/
def insertTsRecSteps (tsId : String) (nstacks : Nat) (nextId : Nat) : List WStep :=
  ⟨nextId, StepKind.convertInput, some tsId, []⟩ ::
  ((List.range nstacks).map (fun counter =>
      ⟨nextId + 1 + counter, StepKind.processIntermediateStacks counter, some tsId, [nextId]⟩))
  ++ [⟨nextId + 1 + nstacks, StepKind.computeReconstruction, some tsId,
        (List.range nstacks).map (fun counter => nextId + 1 + counter)⟩,
      ⟨nextId + 2 + nstacks, StepKind.createOutput, some tsId, [nextId + 1 + nstacks]⟩]

/-- The loop of `ProtNovaCtfTomoReconstruction._insertAllSteps` over the
input tilt-series (each paired with its number of intermediate stacks),
accumulating the output-registration step ids and finally inserting the
close step depending on all of them. -/
def insertAllRecStepsGo : Nat → List Nat → List (String × Nat) → List WStep
  | nextId, deps, [] => [⟨nextId, StepKind.closeOutputSet, none, deps⟩]
  | nextId, deps, (tsId, n) :: rest =>
      insertTsRecSteps tsId n nextId
        ++ insertAllRecStepsGo (nextId + n + 3) (deps ++ [nextId + 2 + n]) rest

/-- Model of `ProtNovaCtfTomoReconstruction._insertAllSteps`
(`protocol_tomoReconstruction.py`, lines 121-148). -/
def insertAllRecSteps (tsList : List (String × Nat)) : List WStep :=
  insertAllRecStepsGo 0 [] tsList

theorem charsToNat_append_digit (l : List Char) (c : Char) :
    charsToNat (l ++ [c]) = 10 * charsToNat l + charToDigit c := by
  simp [charsToNat, List.foldl_append]

theorem charToDigit_digitChar {d : Nat} (hd : d < 10) :
    charToDigit (Nat.digitChar d) = d := by
  interval_cases d <;> decide

theorem charsToNat_natCharsAux :
    ∀ fuel n, n < fuel → charsToNat (natCharsAux fuel n) = n := by
  intro fuel
  induction fuel with
  | zero => intro n hn; omega
  | succ f ih =>
      intro n hn
      match n with
      | 0 => simp [natCharsAux, charsToNat]
      | m + 1 =>
          have hdiv : (m + 1) / 10 < f := by
            have h1 : (m + 1) / 10 < m + 1 := Nat.div_lt_self (Nat.succ_pos m) (by omega)
            omega
          rw [natCharsAux, charsToNat_append_digit, ih _ hdiv,
              charToDigit_digitChar (Nat.mod_lt _ (by omega))]
          omega

theorem charsToNat_natStr (n : Nat) : charsToNat (natStr n).data = n := by
  by_cases h : n = 0
  · subst h; decide
  · rw [natStr, if_neg h]
    exact charsToNat_natCharsAux (n + 1) n (Nat.lt_succ_self n)

theorem natStr_injective : Function.Injective natStr := by
  intro m n h
  have : charsToNat (natStr m).data = charsToNat (natStr n).data := by rw [h]
  rwa [charsToNat_natStr, charsToNat_natStr] at this

/-- Two strings with equal character data are equal. -/
theorem stringDataInj {a b : String} (h : a.data = b.data) : a = b := by
  cases a; cases b; exact congrArg String.mk h

theorem stringAppendData (a b : String) : (a ++ b).data = a.data ++ b.data := rfl

theorem defocusFileName_injective (tsId : String) :
    Function.Injective (defocusFileName tsId) := by
  intro i j h
  have hd := congrArg String.data h
  simp only [defocusFileName, stringAppendData] at hd
  rw [List.append_assoc, List.append_assoc] at hd
  have h2 := List.append_cancel_left hd
  have h3 := List.append_cancel_left h2
  exact natStr_injective (stringDataInj h3)

theorem isPrefixChars_append (p rest : List Char) :
    isPrefixChars p (p ++ rest) = true := by
  induction p with
  | nil => rfl
  | cons a as ih => simp [isPrefixChars, ih]

theorem defocusFileName_matchesGlob (tsId : String) (i : Nat) :
    matchesDefocusGlob tsId (defocusFileName tsId i) = true := by
  have : (defocusFileName tsId i).data
      = (tsId ++ ".defocus_").data ++ (natStr i).data := by
    simp [defocusFileName, stringAppendData]
  rw [matchesDefocusGlob, this, isPrefixChars_append]

theorem exists_missing (fs : Finset String) (tsId : String) :
    ∃ k, k ≤ fs.card ∧ defocusFileName tsId k ∉ fs := by
  by_contra hcon
  push_neg at hcon
  have hsub : ∀ a ∈ Finset.range (fs.card + 1), defocusFileName tsId a ∈ fs := by
    intro a ha
    exact hcon a (Nat.lt_succ_iff.mp (Finset.mem_range.mp ha))
  have hinj : Set.InjOn (defocusFileName tsId) (Finset.range (fs.card + 1)) :=
    fun a _ b _ hab => defocusFileName_injective tsId hab
  have hle := Finset.card_le_card_of_injOn _ hsub hinj
  rw [Finset.card_range] at hle
  omega

theorem stacksLoop_eq (fs : Finset String) (tsId : String) :
    ∀ (fuel d counter n : Nat),
      (∀ i, i < d → defocusFileName tsId (counter + i) ∈ fs) →
      defocusFileName tsId (counter + d) ∉ fs →
      d < fuel →
      stacksLoop fs tsId fuel n counter = n + d := by
  intro fuel
  induction fuel with
  | zero => intro d counter n _ _ hlt; omega
  | succ f ih =>
      intro d counter n hall hmiss hlt
      rw [stacksLoop]
      by_cases hmem : defocusFileName tsId counter ∈ fs
      · rw [if_pos hmem]
        match d with
        | 0 => exact absurd (by simpa using hmem) hmiss
        | e + 1 =>
            have h1 : ∀ i, i < e → defocusFileName tsId (counter + 1 + i) ∈ fs := by
              intro i hi
              have := hall (i + 1) (by omega)
              simpa [Nat.add_assoc, Nat.add_comm 1 i] using this
            have h2 : defocusFileName tsId (counter + 1 + e) ∉ fs := by
              simpa [Nat.add_assoc, Nat.add_comm 1 e] using hmiss
            have := ih e (counter + 1) (n + 1) h1 h2 (by omega)
            rw [this]; omega
      · rw [if_neg hmem]
        match d with
        | 0 => rfl
        | e + 1 => exact absurd (by simpa using hall 0 (by omega)) hmem

/-- C2: `ProtNovaCtfTomoDefocus.getNumberOfIntermediateStacksStep` appends to
`numberOfIntermediateStacks` exactly one entry, whose value `n` is the length
of the maximal consecutive run of existing files `<tsId>.defocus_0`, ...,
`<tsId>.defocus_(n-1)`: every file of index below `n` exists and
`<tsId>.defocus_<n>` is the first one that does not. -/
theorem getNumberOfIntermediateStacksStep_spec
    (fs : Finset String) (tsId : String) (prev : List Nat) :
    ∃ n : Nat,
      getNumberOfIntermediateStacksStep fs tsId prev = prev ++ [n] ∧
      (∀ i, i < n → defocusFileName tsId i ∈ fs) ∧
      defocusFileName tsId n ∉ fs := by
  have hex : ∃ k, defocusFileName tsId k ∉ fs :=
    (exists_missing fs tsId).imp (fun k hk => hk.2)
  refine ⟨Nat.find hex, ?_, ?_, Nat.find_spec hex⟩
  · have hbound : Nat.find hex < fs.card + 1 := by
      obtain ⟨k, hk, hmiss⟩ := exists_missing fs tsId
      have := Nat.find_min' hex hmiss
      omega
    have hall : ∀ i, i < Nat.find hex → defocusFileName tsId (0 + i) ∈ fs := by
      intro i hi
      have := Nat.find_min hex hi
      simpa using not_not.mp this
    have hmiss : defocusFileName tsId (0 + Nat.find hex) ∉ fs := by
      simpa using Nat.find_spec hex
    have := stacksLoop_eq fs tsId (fs.card + 1) (Nat.find hex) 0 0 hall hmiss hbound
    unfold getNumberOfIntermediateStacksStep stacksLoopCount
    rw [this, Nat.zero_add]
  · intro i hi
    have := Nat.find_min hex hi
    simpa using not_not.mp this

/-- C3 counterexample: on the gapped state `fsGapped`
(`TS.defocus_0` and `TS.defocus_2` exist, `TS.defocus_1` does not),
`ProtNovaCtf.getNumberOfStacks` counts 2 glob matches while the
sequential-existence loop of `getNumberOfIntermediateStacksStep` stops at 1,
so the two implementations do not agree on every file-system state. -/
theorem stackCount_glob_ne_sequential :
    getNumberOfStacks fsGapped "TS" = 2 ∧ stacksLoopCount fsGapped "TS" = 1 ∧
    getNumberOfStacks fsGapped "TS" ≠ stacksLoopCount fsGapped "TS" := by decide

/-- C3 (amended): the two intermediate-stack counts agree on every
file-system state in which the files matching the glob pattern
`<tsId>.defocus_*` are exactly the consecutive run
`<tsId>.defocus_0`, ..., `<tsId>.defocus_(n-1)` (which is what the
novaCTF defocus algorithm writes); on such a state both return `n`. -/
theorem stackCount_agree_on_consecutive
    (fs : Finset String) (tsId : String) (n : Nat)
    (h : fs.filter (fun f => matchesDefocusGlob tsId f = true)
        = (Finset.range n).image (defocusFileName tsId)) :
    getNumberOfStacks fs tsId = n ∧ stacksLoopCount fs tsId = n := by
  have hglob : getNumberOfStacks fs tsId = n := by
    rw [getNumberOfStacks, h,
        Finset.card_image_of_injective _ (defocusFileName_injective tsId),
        Finset.card_range]
  refine ⟨hglob, ?_⟩
  have hall : ∀ i, i < n → defocusFileName tsId (0 + i) ∈ fs := by
    intro i hi
    have hmemImg : defocusFileName tsId i ∈ (Finset.range n).image (defocusFileName tsId) :=
      Finset.mem_image_of_mem _ (Finset.mem_range.mpr hi)
    rw [← h] at hmemImg
    simpa using (Finset.mem_filter.mp hmemImg).1
  have hmiss : defocusFileName tsId (0 + n) ∉ fs := by
    intro hmem
    have hfil : defocusFileName tsId n ∈ fs.filter (fun f => matchesDefocusGlob tsId f = true) :=
      Finset.mem_filter.mpr ⟨by simpa using hmem, defocusFileName_matchesGlob tsId n⟩
    rw [h] at hfil
    obtain ⟨j, hj, hje⟩ := Finset.mem_image.mp hfil
    have := defocusFileName_injective tsId hje
    rw [Finset.mem_range] at hj
    omega
  have hbound : n < fs.card + 1 := by
    have : n ≤ fs.card := by
      rw [← hglob, getNumberOfStacks]
      exact Finset.card_filter_le _ _
    omega
  have := stacksLoop_eq fs tsId (fs.card + 1) n 0 0 hall hmiss hbound
  rw [stacksLoopCount, this, Nat.zero_add]

/-- Witness for the amended C3 theorem at a concrete consecutive state. -/
theorem stackCount_agree_on_consecutive_witness :
    getNumberOfStacks {defocusFileName "TS" 0, defocusFileName "TS" 1} "TS" = 2 ∧
    stacksLoopCount {defocusFileName "TS" 0, defocusFileName "TS" 1} "TS" = 2 :=
  stackCount_agree_on_consecutive _ "TS" 2 (by decide)

theorem filter_map_toFinset {α : Type} (l : List α) (f : α → String) (m : Finset String)
    (hm : m ⊆ (l.map f).toFinset) :
    ((l.filter (fun a => f a ∈ m)).map f).toFinset = m := by
  ext x
  simp only [List.mem_toFinset, List.mem_map, List.mem_filter, decide_eq_true_eq]
  constructor
  · rintro ⟨a, ⟨_, hmem⟩, rfl⟩
    exact hmem
  · intro hx
    obtain ⟨a, ha, hid⟩ := List.mem_map.mp (List.mem_toFinset.mp (hm hx))
    exact ⟨a, ⟨ha, by rwa [hid] ⟩, hid⟩

/-- C1: `ProtNovaCtf._initialize` matches tilt-series to CTF estimates by
tsId: it raises the no-matching exception exactly when the two sets of tsIds
have empty intersection; on success the retained tilt-series and CTFs are
exactly those whose tsId lies in the intersection, and a non-matching message
is recorded exactly when some tsId occurs in only one of the two input sets
(it still proceeds with the common ones). -/
theorem initTsCtfMatch_spec (inTsSet : List TiltSeriesData) (inCtfs : List CtfTomoSeries) :
    (initTsCtfMatch inTsSet inCtfs =
        Except.error "No matching tsIds were found among the given sets of tilt-series and CTFs."
      ↔ (inTsSet.map (fun ts => ts.tsId)).toFinset ∩ (inCtfs.map (fun c => c.tsId)).toFinset = ∅) ∧
    (∀ st, initTsCtfMatch inTsSet inCtfs = Except.ok st →
      st.tsDict = inTsSet.filter (fun ts => ts.tsId ∈
          (inTsSet.map (fun ts => ts.tsId)).toFinset ∩ (inCtfs.map (fun c => c.tsId)).toFinset) ∧
      ((st.tsDict.map (fun ts => ts.tsId)).toFinset =
          (inTsSet.map (fun ts => ts.tsId)).toFinset ∩ (inCtfs.map (fun c => c.tsId)).toFinset) ∧
      ((st.ctfDict.map (fun c => c.tsId)).toFinset =
          (inTsSet.map (fun ts => ts.tsId)).toFinset ∩ (inCtfs.map (fun c => c.tsId)).toFinset) ∧
      (st.nonMatchingTsIdsMsg.isSome ↔
          ((inTsSet.map (fun ts => ts.tsId)).toFinset \ (inCtfs.map (fun c => c.tsId)).toFinset) ∪
          ((inCtfs.map (fun c => c.tsId)).toFinset \ (inTsSet.map (fun ts => ts.tsId)).toFinset) ≠ ∅)) := by
  by_cases hempty : (inTsSet.map (fun ts => ts.tsId)).toFinset ∩ (inCtfs.map (fun c => c.tsId)).toFinset = ∅
  · constructor
    · simp [initTsCtfMatch, hempty]
    · intro st hok
      simp [initTsCtfMatch, hempty] at hok
  · constructor
    · simp [initTsCtfMatch, hempty]
    · intro st hok
      simp only [initTsCtfMatch, if_neg hempty] at hok
      obtain rfl := Except.ok.inj hok
      refine ⟨rfl, ?_, ?_, ?_⟩
      · exact filter_map_toFinset inTsSet _ _ Finset.inter_subset_left
      · exact filter_map_toFinset inCtfs _ _ Finset.inter_subset_right
      · by_cases hnm : ((inTsSet.map (fun ts => ts.tsId)).toFinset \ (inCtfs.map (fun c => c.tsId)).toFinset) ∪
            ((inCtfs.map (fun c => c.tsId)).toFinset \ (inTsSet.map (fun ts => ts.tsId)).toFinset) = ∅ <;>
          simp [hnm]

/-- Witness for C1 at a concrete input: tilt-series `TS_1` with CTFs for
`TS_1` and `TS_2` succeeds, keeps exactly `TS_1` and records a message. -/
theorem initTsCtfMatch_spec_witness :
    initStateSample.nonMatchingTsIdsMsg.isSome = true ∧
    (initStateSample.tsDict.map (fun ts => ts.tsId)).toFinset =
      (([tsSample].map (fun ts => ts.tsId)).toFinset ∩
        (([⟨"TS_1"⟩, ⟨"TS_2"⟩] : List CtfTomoSeries).map (fun c => c.tsId)).toFinset) := by
  have h := (initTsCtfMatch_spec [tsSample] [⟨"TS_1"⟩, ⟨"TS_2"⟩]).2 initStateSample (by decide)
  exact ⟨h.2.2.2.mpr (by decide), h.2.1⟩

/-- C10: `getCorrectionType` maps 0 to `phaseflip` and 1 to
`multiplication`; `getDefocusFileFormat` maps 0 to `imod` and 1 to
`ctffind4`; on any other parameter value both fail (the returned local
variable is never assigned), so they are total only for parameter 0 or 1. -/
theorem defocusEnumGetters_spec (v : Int) :
    getCorrectionTypeDefocus 0 = some "phaseflip" ∧
    getCorrectionTypeDefocus 1 = some "multiplication" ∧
    getDefocusFileFormat 0 = some "imod" ∧
    getDefocusFileFormat 1 = some "ctffind4" ∧
    (v ≠ 0 → v ≠ 1 → getCorrectionTypeDefocus v = none ∧ getDefocusFileFormat v = none) := by
  refine ⟨rfl, rfl, rfl, rfl, fun h0 h1 => ?_⟩
  rw [getCorrectionTypeDefocus, getDefocusFileFormat, if_neg h0, if_neg h1, if_neg h1, if_neg h0]
  exact ⟨rfl, rfl⟩

/-- Witness for C10 at the concrete out-of-range value 2. -/
theorem defocusEnumGetters_spec_witness :
    (2 : Int) ≠ 0 ∧ (2 : Int) ≠ 1 ∧
    getCorrectionTypeDefocus 2 = none ∧ getDefocusFileFormat 2 = none := by
  have h := (defocusEnumGetters_spec 2).2.2.2.2 (by decide) (by decide)
  exact ⟨by decide, by decide, h.1, h.2⟩

theorem ctfLoopTrace_eq_bind (cfg : NovaCtfProtArgs) (ts : TiltSeriesData)
    (samplingRate : ℚ) (n : Nat) :
    ctfLoopTrace cfg ts samplingRate n
      = (List.range n).flatMap (stackBodyTrace cfg ts samplingRate) := by
  induction n with
  | zero => rfl
  | succ m ih =>
      rw [ctfLoopTrace, ih, List.range_succ, List.flatMap_append]
      simp

theorem paramsDefocus_lookups (cfg : NovaCtfProtArgs) (ts : TiltSeriesData) (sr : ℚ) :
    findParam (paramsDefocus cfg ts sr) "-Algorithm" = some (PVal.str "defocus") ∧
    findParam (paramsDefocus cfg ts sr) "-InputProjections" = some (PVal.str (tsTmpFileName ts.tsId)) ∧
    findParam (paramsDefocus cfg ts sr) "-TILTFILE" = some (PVal.str (tltFn ts.tsId)) ∧
    findParam (paramsDefocus cfg ts sr) "-DefocusFile" = some (PVal.str (defocusFn ts.tsId)) ∧
    findParam (paramsDefocus cfg ts sr) "-PixelSize" = some (PVal.rat (sr / 10)) ∧
    findParam (paramsDefocus cfg ts sr) "-THICKNESS" = some (PVal.int cfg.tomoThickness) ∧
    findParam (paramsDefocus cfg ts sr) "-SHIFT" = some (PVal.str "0.0,0.0") ∧
    findParam (paramsDefocus cfg ts sr) "-DefocusStep" = some (PVal.int cfg.defocusStep) := by
  by_cases hs : cfg.tomoShift > 1 / 100
  · simp only [paramsDefocus, if_pos hs]
    exact ⟨rfl, rfl, rfl, rfl, rfl, rfl, rfl, rfl⟩
  · simp only [paramsDefocus, if_neg hs]
    exact ⟨rfl, rfl, rfl, rfl, rfl, rfl, rfl, rfl⟩

theorem params3dctf_lookups (cfg : NovaCtfProtArgs) (ts : TiltSeriesData) (sr : ℚ)
    (fs : Finset String) :
    findParam (params3dctf cfg ts sr fs) "-Algorithm" = some (PVal.str "3dctf") ∧
    findParam (params3dctf cfg ts sr fs) "-THICKNESS" = some (PVal.int cfg.tomoThickness) ∧
    findParam (params3dctf cfg ts sr fs) "-SHIFT" = some (PVal.pairQ 0 cfg.tomoShift) ∧
    findParam (params3dctf cfg ts sr fs) "-NumberOfInputStacks"
      = some (PVal.int (getNumberOfStacks fs ts.tsId)) := by
  by_cases hc : 45 < |ts.acquisition.tiltAxisAngle| ∧ |ts.acquisition.tiltAxisAngle| < 135
  · simp only [params3dctf, if_pos hc]
    exact ⟨rfl, rfl, rfl, rfl⟩
  · simp only [params3dctf, if_neg hc]
    exact ⟨rfl, rfl, rfl, rfl⟩

theorem paramsAlignment_xform (ts : TiltSeriesData) (i : Nat) :
    findParam (paramsAlignment ts i) "-xform" = some (PVal.str (xfFn ts.tsId)) := by
  by_cases hc : 45 < |ts.acquisition.tiltAxisAngle| ∧ |ts.acquisition.tiltAxisAngle| < 135
  · simp only [paramsAlignment, if_pos hc]
    rfl
  · simp only [paramsAlignment, if_neg hc]
    rfl

/-- C6: for every tilt-series and every intermediate-stack index `i`, the
per-stack pipeline of `computeDefocusStep` invokes, in this fixed order:
novaCTF ctfCorrection (reading defocus file `i`), then — only when the
tilt-series has alignment information — IMOD `newstack` with the transform
file, then IMOD `clip flipyz`, then novaCTF filterProjections; and
`computeReconstructionStep` invokes novaCTF 3dctf followed by IMOD
`trimvol -rx`. -/
theorem perStackPipeline_order (cfg : NovaCtfProtArgs) (ts : TiltSeriesData) (sr : ℚ)
    (fs : Finset String) (failed : List String) (h : ts.tsId ∉ failed) :
    computeDefocusStepTrace cfg ts sr fs failed
      = Invocation.novaCTF (paramsDefocus cfg ts sr)
        :: (List.range (getNumberOfStacks fs ts.tsId)).flatMap (fun i =>
             [Invocation.novaCTF (paramsCtfCorrection cfg ts sr i)]
             ++ (if ts.hasAlignment then
                   [Invocation.imod "newstack" (paramsAlignment ts i) []]
                 else [])
             ++ [Invocation.imod "clip" []
                   ["flipyz",
                    (if ts.hasAlignment then aliStackTsFnByIndex ts.tsId i
                     else stackTsFnByIndex ts.tsId i),
                    flipStackFnByIndex ts.tsId i],
                 Invocation.novaCTF (paramsFilter cfg ts i)]) ∧
    (∀ i, findParam (paramsCtfCorrection cfg ts sr i) "-Algorithm"
            = some (PVal.str "ctfCorrection")
        ∧ findParam (paramsCtfCorrection cfg ts sr i) "-DefocusFile"
            = some (PVal.str (defocusFnByIndex ts.tsId i))
        ∧ findParam (paramsAlignment ts i) "-xform" = some (PVal.str (xfFn ts.tsId))
        ∧ findParam (paramsFilter cfg ts i) "-Algorithm"
            = some (PVal.str "filterProjections")) ∧
    computeReconstructionStepTrace cfg ts sr fs failed
      = [Invocation.novaCTF (params3dctf cfg ts sr fs),
         Invocation.imod "trimvol" [] ["-rx", recTomoTmpFn ts.tsId, finalRecTomoFn ts.tsId]] ∧
    findParam (params3dctf cfg ts sr fs) "-Algorithm" = some (PVal.str "3dctf") := by
  refine ⟨?_, ?_, ?_, (params3dctf_lookups cfg ts sr fs).1⟩
  · rw [computeDefocusStepTrace, if_neg h, ctfLoopTrace_eq_bind]
    rfl
  · intro i
    exact ⟨rfl, rfl, paramsAlignment_xform ts i, rfl⟩
  · rw [computeReconstructionStepTrace, if_neg h]

/-- Witness for C6 at a concrete input: the reconstruction trace of the
sample tilt-series. -/
theorem perStackPipeline_order_witness :
    computeReconstructionStepTrace cfgSample tsSample 2 ∅ []
      = [Invocation.novaCTF (params3dctf cfgSample tsSample 2 ∅),
         Invocation.imod "trimvol" []
           ["-rx", recTomoTmpFn "TS_1", finalRecTomoFn "TS_1"]] := by
  have h := perStackPipeline_order cfgSample tsSample 2 ∅ [] (by decide)
  exact h.2.2.1

/-- C5: every novaCTF invocation issued by `computeDefocusStep` and
`computeReconstructionStep` passes an `-Algorithm` selector whose value is
one of `defocus`, `ctfCorrection`, `filterProjections` or `3dctf`; the
defocus call carries input projections, tilt file, defocus file, pixel size
(sampling rate divided by 10), thickness, shift and defocus step; every
filterProjections call carries `-RADIAL first,second`; the 3dctf call
carries thickness, shift and the number of input stacks. -/
theorem novactfAlgorithm_spec (cfg : NovaCtfProtArgs) (ts : TiltSeriesData) (sr : ℚ)
    (fs : Finset String) (failed : List String) (h : ts.tsId ∉ failed) :
    (∀ p, Invocation.novaCTF p ∈ computeDefocusStepTrace cfg ts sr fs failed
              ++ computeReconstructionStepTrace cfg ts sr fs failed →
        findParam p "-Algorithm" = some (PVal.str "defocus") ∨
        findParam p "-Algorithm" = some (PVal.str "ctfCorrection") ∨
        findParam p "-Algorithm" = some (PVal.str "filterProjections") ∨
        findParam p "-Algorithm" = some (PVal.str "3dctf")) ∧
    (findParam (paramsDefocus cfg ts sr) "-InputProjections"
        = some (PVal.str (tsTmpFileName ts.tsId)) ∧
     findParam (paramsDefocus cfg ts sr) "-TILTFILE" = some (PVal.str (tltFn ts.tsId)) ∧
     findParam (paramsDefocus cfg ts sr) "-DefocusFile" = some (PVal.str (defocusFn ts.tsId)) ∧
     findParam (paramsDefocus cfg ts sr) "-PixelSize" = some (PVal.rat (sr / 10)) ∧
     findParam (paramsDefocus cfg ts sr) "-THICKNESS" = some (PVal.int cfg.tomoThickness) ∧
     findParam (paramsDefocus cfg ts sr) "-SHIFT" = some (PVal.str "0.0,0.0") ∧
     findParam (paramsDefocus cfg ts sr) "-DefocusStep" = some (PVal.int cfg.defocusStep)) ∧
    (∀ i, findParam (paramsFilter cfg ts i) "-RADIAL"
        = some (PVal.pairQ cfg.radialFirstParameter cfg.radialSecondParameter)) ∧
    (findParam (params3dctf cfg ts sr fs) "-THICKNESS" = some (PVal.int cfg.tomoThickness) ∧
     findParam (params3dctf cfg ts sr fs) "-SHIFT" = some (PVal.pairQ 0 cfg.tomoShift) ∧
     findParam (params3dctf cfg ts sr fs) "-NumberOfInputStacks"
        = some (PVal.int (getNumberOfStacks fs ts.tsId))) := by
  refine ⟨?_, (paramsDefocus_lookups cfg ts sr).2, fun i => rfl,
    (params3dctf_lookups cfg ts sr fs).2⟩
  intro p hp
  rw [computeDefocusStepTrace, if_neg h, ctfLoopTrace_eq_bind,
      computeReconstructionStepTrace, if_neg h] at hp
  simp only [stackBodyTrace, List.cons_append, List.mem_append, List.mem_cons,
      List.mem_flatMap, List.mem_range, List.mem_singleton, List.not_mem_nil,
      or_false, false_or] at hp
  rcases hp with hd | ⟨i, _, hc1 | hmem | hclip | hfil⟩ | h3d | htrim
  · obtain rfl := Invocation.novaCTF.inj hd
    exact Or.inl (paramsDefocus_lookups cfg ts sr).1
  · obtain rfl := Invocation.novaCTF.inj hc1
    exact Or.inr (Or.inl rfl)
  · cases hA : ts.hasAlignment <;> rw [hA] at hmem <;> simp at hmem
  · exact Invocation.noConfusion hclip
  · obtain rfl := Invocation.novaCTF.inj hfil
    exact Or.inr (Or.inr (Or.inl rfl))
  · obtain rfl := Invocation.novaCTF.inj h3d
    exact Or.inr (Or.inr (Or.inr (params3dctf_lookups cfg ts sr fs).1))
  · exact Invocation.noConfusion htrim

/-- Witness for C5 at a concrete input: the radial filter argument of the
sample configuration. -/
theorem novactfAlgorithm_spec_witness :
    findParam (paramsFilter cfgSample tsSample 0) "-RADIAL"
      = some (PVal.pairQ cfgSample.radialFirstParameter cfgSample.radialSecondParameter) := by
  have h := novactfAlgorithm_spec cfgSample tsSample 2 ∅ [] (by decide)
  exact h.2.2.1 0

/-- C9: the X/Y dimensions passed to the external tools — the `-FULLIMAGE`
argument of the 3dctf call and the `-size` argument of the newstack
alignment call — are swapped to `yDim,xDim` if and only if the tilt-axis
rotation angle satisfies `45 < |angle| < 135`; at exactly 45 or 135 degrees
(and for all smaller/larger absolute angles) the original `xDim,yDim` order
is used (and no `-size` entry is added). -/
theorem dimensionSwap_spec (cfg : NovaCtfProtArgs) (ts : TiltSeriesData) (sr : ℚ)
    (fs : Finset String) (hxy : ts.xDim ≠ ts.yDim) :
    (findParam (params3dctf cfg ts sr fs) "-FULLIMAGE" = some (PVal.pairN ts.yDim ts.xDim)
      ↔ (45 < |ts.acquisition.tiltAxisAngle| ∧ |ts.acquisition.tiltAxisAngle| < 135)) ∧
    (∀ i, findParam (paramsAlignment ts i) "-size" = some (PVal.pairN ts.yDim ts.xDim)
      ↔ (45 < |ts.acquisition.tiltAxisAngle| ∧ |ts.acquisition.tiltAxisAngle| < 135)) ∧
    ((|ts.acquisition.tiltAxisAngle| = 45 ∨ |ts.acquisition.tiltAxisAngle| = 135) →
      findParam (params3dctf cfg ts sr fs) "-FULLIMAGE" = some (PVal.pairN ts.xDim ts.yDim) ∧
      ∀ i, findParam (paramsAlignment ts i) "-size" = none) := by
  by_cases hc : 45 < |ts.acquisition.tiltAxisAngle| ∧ |ts.acquisition.tiltAxisAngle| < 135
  · refine ⟨?_, ?_, ?_⟩
    · simp only [params3dctf, if_pos hc]
      exact ⟨fun _ => hc, fun _ => rfl⟩
    · intro i
      simp only [paramsAlignment, if_pos hc]
      exact ⟨fun _ => hc, fun _ => rfl⟩
    · intro hb
      rcases hb with hb | hb <;> rw [hb] at hc
      · exact absurd hc.1 (by norm_num)
      · exact absurd hc.2 (by norm_num)
  · have hval : findParam (params3dctf cfg ts sr fs) "-FULLIMAGE"
        = some (PVal.pairN ts.xDim ts.yDim) := by
      simp only [params3dctf, if_neg hc]
      rfl
    have hsize : ∀ i, findParam (paramsAlignment ts i) "-size" = none := by
      intro i
      simp only [paramsAlignment, if_neg hc]
      rfl
    refine ⟨?_, ?_, fun _ => ⟨hval, hsize⟩⟩
    · rw [hval]
      constructor
      · intro he
        obtain ⟨h1, _⟩ := PVal.pairN.inj (Option.some.inj he)
        exact absurd h1 hxy
      · intro hcc
        exact absurd hcc hc
    · intro i
      rw [hsize i]
      constructor
      · intro he
        exact absurd he (by simp)
      · intro hcc
        exact absurd hcc hc

/-- Witness for C9 at a concrete input: the sample tilt-series has tilt-axis
angle 85, which lies strictly between 45 and 135, so `-FULLIMAGE` is swapped. -/
theorem dimensionSwap_spec_witness :
    tsSample.xDim ≠ tsSample.yDim ∧
    (findParam (params3dctf cfgSample tsSample 2 ∅) "-FULLIMAGE"
        = some (PVal.pairN tsSample.yDim tsSample.xDim)
      ↔ (45 < |tsSample.acquisition.tiltAxisAngle| ∧
         |tsSample.acquisition.tiltAxisAngle| < 135)) :=
  ⟨by decide, (dimensionSwap_spec cfgSample tsSample 2 ∅ (by decide)).1⟩

/-- C7: `createOutputStep` appends a new tomogram to the output set if and
only if the final reconstructed file for the tilt-series exists; the
appended tomogram carries the tilt-series' tsId, the input set's sampling
rate and the tilt-series' acquisition; when the file does not exist the
output set is left unchanged. -/
theorem createOutputStep_spec (fs : Finset String) (failed : List String)
    (ts : TiltSeriesData) (sr : ℚ) (outSet : List TomogramOut) :
    ((∃ t, createOutputStep fs failed ts sr outSet = outSet ++ [t] ∧
        t.tsId = ts.tsId ∧ t.samplingRate = sr ∧ t.acquisition = ts.acquisition ∧
        t.fileName = finalRecTomoFn ts.tsId)
      ↔ finalRecTomoFn ts.tsId ∈ fs) ∧
    (finalRecTomoFn ts.tsId ∉ fs → createOutputStep fs failed ts sr outSet = outSet) := by
  by_cases hmem : finalRecTomoFn ts.tsId ∈ fs
  · constructor
    · refine ⟨fun _ => hmem, fun _ => ?_⟩
      refine ⟨{ fileName := finalRecTomoFn ts.tsId
                tsId := ts.tsId
                samplingRate := sr
                acquisition := ts.acquisition }, ?_, rfl, rfl, rfl, rfl⟩
      rw [createOutputStep]
      simp only [strIsList, Bool.false_eq_true, if_false, if_pos hmem]
    · intro hn
      exact absurd hmem hn
  · constructor
    · constructor
      · rintro ⟨t, heq, _⟩
        rw [createOutputStep] at heq
        simp only [strIsList, Bool.false_eq_true, if_false, if_neg hmem] at heq
        exact absurd heq (by simp)
      · intro hmm
        exact absurd hmm hmem
    · intro _
      rw [createOutputStep]
      simp only [strIsList, Bool.false_eq_true, if_false, if_neg hmem]

/-- Witness for C7 at a concrete input: with an empty file system nothing is
appended. -/
theorem createOutputStep_spec_witness :
    finalRecTomoFn tsSample.tsId ∉ (∅ : Finset String) ∧
    createOutputStep ∅ [] tsSample 2 [] = [] :=
  ⟨by decide, (createOutputStep_spec ∅ [] tsSample 2 []).2 (by decide)⟩

/-- C8: for a tsId recorded in `failedItems`, `computeDefocusStep` and
`computeReconstructionStep` do return immediately without invoking any
external program (their guards use `in`), but `createOutputStep` does NOT
skip the failed tilt-series: its guard `if tsId is self.failedItems:` is a
Python identity test between a `str` and a `list`, which is always False, so
with `TS_1 ∈ failedItems` and the final file present it still registers an
output — contradicting the claim (and the clear intent of the symmetric
guards at lines 249 and 350 of `protocol_novactf.py`). -/
theorem failedItemGuards_divergence :
    computeDefocusStepTrace cfgSample tsSample 2 fsWithFinalTomo ["TS_1"] = [] ∧
    computeReconstructionStepTrace cfgSample tsSample 2 fsWithFinalTomo ["TS_1"] = [] ∧
    createOutputStep fsWithFinalTomo ["TS_1"] tsSample 2 [] =
      [{ fileName := finalRecTomoFn "TS_1"
         tsId := "TS_1"
         samplingRate := 2
         acquisition := acqSample }] := by
  refine ⟨?_, ?_, ?_⟩
  · rw [computeDefocusStepTrace, if_pos (by decide)]
  · rw [computeReconstructionStepTrace, if_pos (by decide)]
  · rw [createOutputStep]
    simp only [strIsList, Bool.false_eq_true, if_false]
    rw [if_pos (by decide)]
    rfl

theorem g1_exists_convert :
    ∀ (tsIds : List String) (nextId : Nat) (deps : List Nat),
      ∀ s ∈ insertAllStepsGo nextId deps tsIds, s.kind = StepKind.computeDefocus →
        ∃ c ∈ insertAllStepsGo nextId deps tsIds, c.kind = StepKind.convertInput ∧
          c.tsId = s.tsId ∧ c.id ∈ s.prereqs := by
  intro tsIds
  induction tsIds with
  | nil =>
      intro nextId deps s hs hk
      simp only [insertAllStepsGo, List.mem_singleton] at hs
      subst hs
      exact absurd hk (by simp)
  | cons t rest ih =>
      intro nextId deps s hs hk
      rw [insertAllStepsGo] at hs ⊢
      rcases List.mem_append.mp hs with hh | ht
      · simp only [insertTsSteps, List.mem_cons, List.mem_singleton, List.not_mem_nil,
          or_false] at hh
        rcases hh with rfl | rfl | rfl | rfl
        · exact absurd hk (by simp)
        · refine ⟨⟨nextId, StepKind.convertInput, some t, []⟩, ?_, rfl, rfl, ?_⟩
          · exact List.mem_append_left _ (by simp [insertTsSteps])
          · simp
        · exact absurd hk (by simp)
        · exact absurd hk (by simp)
      · obtain ⟨c, hc, hck, hct, hci⟩ := ih (nextId + 4) (deps ++ [nextId + 3]) s ht hk
        exact ⟨c, List.mem_append_right _ hc, hck, hct, hci⟩

theorem g1_defocus_before_recon :
    ∀ (tsIds : List String) (nextId : Nat) (deps : List Nat),
      ∀ s ∈ insertAllStepsGo nextId deps tsIds, s.kind = StepKind.computeReconstruction →
        ∃ d ∈ insertAllStepsGo nextId deps tsIds, d.kind = StepKind.computeDefocus ∧
          d.tsId = s.tsId ∧ d.id ∈ s.prereqs := by
  intro tsIds
  induction tsIds with
  | nil =>
      intro nextId deps s hs hk
      simp only [insertAllStepsGo, List.mem_singleton] at hs
      subst hs
      exact absurd hk (by simp)
  | cons t rest ih =>
      intro nextId deps s hs hk
      rw [insertAllStepsGo] at hs ⊢
      rcases List.mem_append.mp hs with hh | ht
      · simp only [insertTsSteps, List.mem_cons, List.mem_singleton, List.not_mem_nil,
          or_false] at hh
        rcases hh with rfl | rfl | rfl | rfl
        · exact absurd hk (by simp)
        · exact absurd hk (by simp)
        · refine ⟨⟨nextId + 1, StepKind.computeDefocus, some t, [nextId]⟩, ?_, rfl, rfl, ?_⟩
          · exact List.mem_append_left _ (by simp [insertTsSteps])
          · simp
        · exact absurd hk (by simp)
      · obtain ⟨d, hd, hdk, hdt, hdi⟩ := ih (nextId + 4) (deps ++ [nextId + 3]) s ht hk
        exact ⟨d, List.mem_append_right _ hd, hdk, hdt, hdi⟩

theorem g1_recon_before_output :
    ∀ (tsIds : List String) (nextId : Nat) (deps : List Nat),
      ∀ s ∈ insertAllStepsGo nextId deps tsIds, s.kind = StepKind.createOutput →
        ∃ r ∈ insertAllStepsGo nextId deps tsIds, r.kind = StepKind.computeReconstruction ∧
          r.tsId = s.tsId ∧ r.id ∈ s.prereqs := by
  intro tsIds
  induction tsIds with
  | nil =>
      intro nextId deps s hs hk
      simp only [insertAllStepsGo, List.mem_singleton] at hs
      subst hs
      exact absurd hk (by simp)
  | cons t rest ih =>
      intro nextId deps s hs hk
      rw [insertAllStepsGo] at hs ⊢
      rcases List.mem_append.mp hs with hh | ht
      · simp only [insertTsSteps, List.mem_cons, List.mem_singleton, List.not_mem_nil,
          or_false] at hh
        rcases hh with rfl | rfl | rfl | rfl
        · exact absurd hk (by simp)
        · exact absurd hk (by simp)
        · exact absurd hk (by simp)
        · refine ⟨⟨nextId + 2, StepKind.computeReconstruction, some t, [nextId + 1]⟩,
            ?_, rfl, rfl, ?_⟩
          · exact List.mem_append_left _ (by simp [insertTsSteps])
          · simp
      · obtain ⟨r, hr, hrk, hrt, hri⟩ := ih (nextId + 4) (deps ++ [nextId + 3]) s ht hk
        exact ⟨r, List.mem_append_right _ hr, hrk, hrt, hri⟩

theorem g1_close_after_outputs :
    ∀ (tsIds : List String) (nextId : Nat) (deps : List Nat),
      ∃ cl ∈ insertAllStepsGo nextId deps tsIds, cl.kind = StepKind.closeOutputSet ∧
        (∀ x ∈ deps, x ∈ cl.prereqs) ∧
        ∀ s ∈ insertAllStepsGo nextId deps tsIds, s.kind = StepKind.createOutput →
          s.id ∈ cl.prereqs := by
  intro tsIds
  induction tsIds with
  | nil =>
      intro nextId deps
      refine ⟨⟨nextId, StepKind.closeOutputSet, none, deps⟩, by simp [insertAllStepsGo],
        rfl, fun x hx => hx, ?_⟩
      intro s hs hk
      simp only [insertAllStepsGo, List.mem_singleton] at hs
      subst hs
      exact absurd hk (by simp)
  | cons t rest ih =>
      intro nextId deps
      obtain ⟨cl, hcl, hk, hdep, hout⟩ := ih (nextId + 4) (deps ++ [nextId + 3])
      rw [insertAllStepsGo]
      refine ⟨cl, List.mem_append_right _ hcl, hk, ?_, ?_⟩
      · intro x hx
        exact hdep x (List.mem_append_left _ hx)
      · intro s hs hsk
        rcases List.mem_append.mp hs with hh | ht
        · simp only [insertTsSteps, List.mem_cons, List.mem_singleton, List.not_mem_nil,
            or_false] at hh
          rcases hh with rfl | rfl | rfl | rfl
          · exact absurd hsk (by simp)
          · exact absurd hsk (by simp)
          · exact absurd hsk (by simp)
          · exact hdep (nextId + 3) (by simp)
        · exact hout s ht hsk

theorem g2_convert_before_stacks :
    ∀ (tsList : List (String × Nat)) (nextId : Nat) (deps : List Nat),
      ∀ s ∈ insertAllRecStepsGo nextId deps tsList,
        (∃ c, s.kind = StepKind.processIntermediateStacks c) →
        ∃ c ∈ insertAllRecStepsGo nextId deps tsList, c.kind = StepKind.convertInput ∧
          c.tsId = s.tsId ∧ c.id ∈ s.prereqs := by
  intro tsList
  induction tsList with
  | nil =>
      intro nextId deps s hs hk
      simp only [insertAllRecStepsGo, List.mem_singleton] at hs
      subst hs
      obtain ⟨c, hc⟩ := hk
      exact absurd hc (by simp)
  | cons p rest ih =>
      obtain ⟨t, n⟩ := p
      intro nextId deps s hs hk
      rw [insertAllRecStepsGo] at hs ⊢
      rcases List.mem_append.mp hs with hh | ht
      · simp only [insertTsRecSteps, List.mem_cons, List.mem_append, List.mem_map,
          List.mem_range, List.not_mem_nil, or_false] at hh
        rcases hh with (rfl | ⟨counter, hlt, rfl⟩) | rfl | rfl
        · obtain ⟨c, hc⟩ := hk
          exact absurd hc (by simp)
        · refine ⟨⟨nextId, StepKind.convertInput, some t, []⟩, ?_, rfl, rfl, ?_⟩
          · exact List.mem_append_left _ (by simp [insertTsRecSteps])
          · simp
        · obtain ⟨c, hc⟩ := hk
          exact absurd hc (by simp)
        · obtain ⟨c, hc⟩ := hk
          exact absurd hc (by simp)
      · obtain ⟨c, hc, hck, hct, hci⟩ := ih (nextId + n + 3) (deps ++ [nextId + 2 + n]) s ht hk
        exact ⟨c, List.mem_append_right _ hc, hck, hct, hci⟩

theorem g2_step_tsIds :
    ∀ (tsList : List (String × Nat)) (nextId : Nat) (deps : List Nat),
      ∀ s ∈ insertAllRecStepsGo nextId deps tsList, s.kind ≠ StepKind.closeOutputSet →
        ∃ u, s.tsId = some u ∧ u ∈ tsList.map Prod.fst := by
  intro tsList
  induction tsList with
  | nil =>
      intro nextId deps s hs hk
      simp only [insertAllRecStepsGo, List.mem_singleton] at hs
      subst hs
      exact absurd rfl hk
  | cons p rest ih =>
      obtain ⟨t, n⟩ := p
      intro nextId deps s hs hk
      rw [insertAllRecStepsGo] at hs
      rcases List.mem_append.mp hs with hh | ht
      · simp only [insertTsRecSteps, List.mem_cons, List.mem_append, List.mem_map,
          List.mem_range, List.not_mem_nil, or_false] at hh
        rcases hh with (rfl | ⟨counter, hlt, rfl⟩) | rfl | rfl <;>
          exact ⟨t, rfl, by simp⟩
      · obtain ⟨u, hu, humem⟩ := ih (nextId + n + 3) (deps ++ [nextId + 2 + n]) s ht hk
        exact ⟨u, hu, by simp [humem]⟩

theorem g2_stacks_precede_recon :
    ∀ (tsList : List (String × Nat)) (nextId : Nat) (deps : List Nat),
      (tsList.map Prod.fst).Nodup →
      ∀ s ∈ insertAllRecStepsGo nextId deps tsList, s.kind = StepKind.computeReconstruction →
        ∀ q ∈ insertAllRecStepsGo nextId deps tsList,
          (∃ c, q.kind = StepKind.processIntermediateStacks c) → q.tsId = s.tsId →
          q.id ∈ s.prereqs := by
  intro tsList
  induction tsList with
  | nil =>
      intro nextId deps hnd s hs hk
      simp only [insertAllRecStepsGo, List.mem_singleton] at hs
      subst hs
      exact absurd hk (by simp)
  | cons p rest ih =>
      obtain ⟨t, n⟩ := p
      intro nextId deps hnd s hs hsk q hq hqk hqt
      have hndtail : (rest.map Prod.fst).Nodup := (List.nodup_cons.mp hnd).2
      have hthead : t ∉ rest.map Prod.fst := (List.nodup_cons.mp hnd).1
      rw [insertAllRecStepsGo] at hs hq
      rcases List.mem_append.mp hs with hsh | hst
      · -- s is in the head group: it must be the reconstruction step
        simp only [insertTsRecSteps, List.mem_cons, List.mem_append, List.mem_map,
          List.mem_range, List.not_mem_nil, or_false] at hsh
        rcases hsh with (rfl | ⟨counter, hlt, rfl⟩) | rfl | rfl
        · exact absurd hsk (by simp)
        · exact absurd hsk (by simp)
        · rcases List.mem_append.mp hq with hqh | hqt2
          · simp only [insertTsRecSteps, List.mem_cons, List.mem_append, List.mem_map,
              List.mem_range, List.not_mem_nil, or_false] at hqh
            rcases hqh with (rfl | ⟨counter, hlt, rfl⟩) | rfl | rfl
            · obtain ⟨c, hc⟩ := hqk
              exact absurd hc (by simp)
            · simp only [List.mem_map, List.mem_range]
              exact ⟨counter, hlt, rfl⟩
            · obtain ⟨c, hc⟩ := hqk
              exact absurd hc (by simp)
            · obtain ⟨c, hc⟩ := hqk
              exact absurd hc (by simp)
          · -- q in the tail but carries the head tsId: impossible by Nodup
            obtain ⟨u, hu, humem⟩ := g2_step_tsIds rest (nextId + n + 3)
              (deps ++ [nextId + 2 + n]) q hqt2 (by
                obtain ⟨c, hc⟩ := hqk
                rw [hc]
                simp)
            rw [hqt] at hu
            obtain rfl := Option.some.inj hu
            exact absurd humem hthead
        · exact absurd hsk (by simp)
      · rcases List.mem_append.mp hq with hqh | hqt2
        · -- q in the head group but s in the tail: impossible by Nodup
          obtain ⟨u, hu, humem⟩ := g2_step_tsIds rest (nextId + n + 3)
            (deps ++ [nextId + 2 + n]) s hst (by rw [hsk]; simp)
          have hqts : q.tsId = some t := by
            simp only [insertTsRecSteps, List.mem_cons, List.mem_append, List.mem_map,
              List.mem_range, List.not_mem_nil, or_false] at hqh
            rcases hqh with (rfl | ⟨counter, hlt, rfl⟩) | rfl | rfl <;> rfl
          rw [hqts, hu] at hqt
          obtain rfl := Option.some.inj hqt
          exact absurd humem hthead
        · exact ih (nextId + n + 3) (deps ++ [nextId + 2 + n]) hndtail s hst hsk q hqt2 hqk hqt

theorem g2_recon_before_output :
    ∀ (tsList : List (String × Nat)) (nextId : Nat) (deps : List Nat),
      ∀ s ∈ insertAllRecStepsGo nextId deps tsList, s.kind = StepKind.createOutput →
        ∃ r ∈ insertAllRecStepsGo nextId deps tsList, r.kind = StepKind.computeReconstruction ∧
          r.tsId = s.tsId ∧ r.id ∈ s.prereqs := by
  intro tsList
  induction tsList with
  | nil =>
      intro nextId deps s hs hk
      simp only [insertAllRecStepsGo, List.mem_singleton] at hs
      subst hs
      exact absurd hk (by simp)
  | cons p rest ih =>
      obtain ⟨t, n⟩ := p
      intro nextId deps s hs hk
      rw [insertAllRecStepsGo] at hs ⊢
      rcases List.mem_append.mp hs with hh | ht
      · simp only [insertTsRecSteps, List.mem_cons, List.mem_append, List.mem_map,
          List.mem_range, List.not_mem_nil, or_false] at hh
        rcases hh with (rfl | ⟨counter, hlt, rfl⟩) | rfl | rfl
        · exact absurd hk (by simp)
        · exact absurd hk (by simp)
        · exact absurd hk (by simp)
        · refine ⟨⟨nextId + 1 + n, StepKind.computeReconstruction, some t,
            (List.range n).map (fun counter => nextId + 1 + counter)⟩, ?_, rfl, rfl, ?_⟩
          · exact List.mem_append_left _ (by simp [insertTsRecSteps])
          · simp
      · obtain ⟨r, hr, hrk, hrt, hri⟩ := ih (nextId + n + 3) (deps ++ [nextId + 2 + n]) s ht hk
        exact ⟨r, List.mem_append_right _ hr, hrk, hrt, hri⟩

theorem g2_close_after_outputs :
    ∀ (tsList : List (String × Nat)) (nextId : Nat) (deps : List Nat),
      ∃ cl ∈ insertAllRecStepsGo nextId deps tsList, cl.kind = StepKind.closeOutputSet ∧
        (∀ x ∈ deps, x ∈ cl.prereqs) ∧
        ∀ s ∈ insertAllRecStepsGo nextId deps tsList, s.kind = StepKind.createOutput →
          s.id ∈ cl.prereqs := by
  intro tsList
  induction tsList with
  | nil =>
      intro nextId deps
      refine ⟨⟨nextId, StepKind.closeOutputSet, none, deps⟩, by simp [insertAllRecStepsGo],
        rfl, fun x hx => hx, ?_⟩
      intro s hs hk
      simp only [insertAllRecStepsGo, List.mem_singleton] at hs
      subst hs
      exact absurd hk (by simp)
  | cons p rest ih =>
      obtain ⟨t, n⟩ := p
      intro nextId deps
      obtain ⟨cl, hcl, hk, hdep, hout⟩ := ih (nextId + n + 3) (deps ++ [nextId + 2 + n])
      rw [insertAllRecStepsGo]
      refine ⟨cl, List.mem_append_right _ hcl, hk, ?_, ?_⟩
      · intro x hx
        exact hdep x (List.mem_append_left _ hx)
      · intro s hs hsk
        rcases List.mem_append.mp hs with hh | ht
        · simp only [insertTsRecSteps, List.mem_cons, List.mem_append, List.mem_map,
            List.mem_range, List.not_mem_nil, or_false] at hh
          rcases hh with (rfl | ⟨counter, hlt, rfl⟩) | rfl | rfl
          · exact absurd hsk (by simp)
          · exact absurd hsk (by simp)
          · exact absurd hsk (by simp)
          · exact hdep (nextId + 2 + n) (by simp)
        · exact hout s ht hsk

/-- C4: the inserted step graphs enforce, for every tilt-series: input
conversion precedes defocus computation (`ProtNovaCtf`) and every
intermediate-stack step (`ProtNovaCtfTomoReconstruction`); the defocus step,
respectively all intermediate-stack steps, precede the reconstruction step;
the reconstruction step precedes the output-registration step; and the step
that closes the output set lists every tilt-series' output-registration step
among its prerequisites. -/
theorem stepGraph_order (tsIds : List String) (tsList : List (String × Nat))
    (hnd : (tsList.map Prod.fst).Nodup) :
    (∀ s ∈ insertAllSteps tsIds, s.kind = StepKind.computeDefocus →
        ∃ c ∈ insertAllSteps tsIds, c.kind = StepKind.convertInput ∧
          c.tsId = s.tsId ∧ c.id ∈ s.prereqs) ∧
    (∀ s ∈ insertAllSteps tsIds, s.kind = StepKind.computeReconstruction →
        ∃ d ∈ insertAllSteps tsIds, d.kind = StepKind.computeDefocus ∧
          d.tsId = s.tsId ∧ d.id ∈ s.prereqs) ∧
    (∀ s ∈ insertAllSteps tsIds, s.kind = StepKind.createOutput →
        ∃ r ∈ insertAllSteps tsIds, r.kind = StepKind.computeReconstruction ∧
          r.tsId = s.tsId ∧ r.id ∈ s.prereqs) ∧
    (∃ cl ∈ insertAllSteps tsIds, cl.kind = StepKind.closeOutputSet ∧
        ∀ s ∈ insertAllSteps tsIds, s.kind = StepKind.createOutput →
          s.id ∈ cl.prereqs) ∧
    (∀ s ∈ insertAllRecSteps tsList,
        (∃ c, s.kind = StepKind.processIntermediateStacks c) →
        ∃ c ∈ insertAllRecSteps tsList, c.kind = StepKind.convertInput ∧
          c.tsId = s.tsId ∧ c.id ∈ s.prereqs) ∧
    (∀ s ∈ insertAllRecSteps tsList, s.kind = StepKind.computeReconstruction →
        ∀ q ∈ insertAllRecSteps tsList,
          (∃ c, q.kind = StepKind.processIntermediateStacks c) → q.tsId = s.tsId →
          q.id ∈ s.prereqs) ∧
    (∀ s ∈ insertAllRecSteps tsList, s.kind = StepKind.createOutput →
        ∃ r ∈ insertAllRecSteps tsList, r.kind = StepKind.computeReconstruction ∧
          r.tsId = s.tsId ∧ r.id ∈ s.prereqs) ∧
    (∃ cl ∈ insertAllRecSteps tsList, cl.kind = StepKind.closeOutputSet ∧
        ∀ s ∈ insertAllRecSteps tsList, s.kind = StepKind.createOutput →
          s.id ∈ cl.prereqs) := by
  refine ⟨g1_exists_convert tsIds 0 [], g1_defocus_before_recon tsIds 0 [],
    g1_recon_before_output tsIds 0 [], ?_, g2_convert_before_stacks tsList 0 [],
    g2_stacks_precede_recon tsList 0 [] hnd, g2_recon_before_output tsList 0 [], ?_⟩
  · obtain ⟨cl, hcl, hk, _, hout⟩ := g1_close_after_outputs tsIds 0 []
    exact ⟨cl, hcl, hk, hout⟩
  · obtain ⟨cl, hcl, hk, _, hout⟩ := g2_close_after_outputs tsList 0 []
    exact ⟨cl, hcl, hk, hout⟩

/-- Witness for C4 at a concrete input: in the reconstruction-protocol graph
for one tilt-series with one intermediate stack, the stack step (id 1)
is a prerequisite of the reconstruction step (id 2). -/
theorem stepGraph_order_witness :
    (1 : Nat) ∈ (⟨2, StepKind.computeReconstruction, some "TS_1", [1]⟩ : WStep).prereqs := by
  have h := (stepGraph_order ["TS_1"] [("TS_1", 1)] (by decide)).2.2.2.2.2.1
  exact h ⟨2, StepKind.computeReconstruction, some "TS_1", [1]⟩ (by decide) rfl
    ⟨1, StepKind.processIntermediateStacks 0, some "TS_1", [0]⟩ (by decide) ⟨0, rfl⟩ rfl

